import Mathlib

/-!
Verification of the control-manifold composition and propagation framework
(`src/ompl/control/src/ControlManifold.cpp`).

The C++ core consists of
  * a process-wide name registry (`namesList`, a `std::set<std::string>`
    with add / remove / replace operations, lines 48-79);
  * the base `ControlManifold` (constructor registers a derived name,
    destructor unregisters, `setName` replaces, `propagate` dispatches to an
    optional injected function, lines 84-141);
  * the `CompoundControlManifold` (ordered child list, locked flag, recursive
    control lifecycle / propagation / value-address lookup, lines 143-303).

The shallow embedding below translates each of these into executable Lean
definitions.  Machine strings are `String`, the registry set is a `List String`
kept duplicate-free (a `std::set` holds each element once), controls and
states are finite trees mirroring `CompoundControl` / `CompoundState`, and
C++ exceptions become `Except Err` results.  `double` durations are carried
as an opaque `Int` parameter: no claim performs arithmetic on them.
-/

namespace OmplControl

/-- Error kinds raised by the C++ core (`ompl::Exception` messages,
distinguished here by their cause). `shapeMismatch` marks the
undefined-behavior boundary where the C++ code would `static_cast` a
control/state of the wrong concrete shape; no claim concerns that region. -/
inductive Err where
  | duplicateName
  | unknownName
  | lockedManifold
  | unknownSubManifold
  | unconfiguredPropagation
  | allocFail
  | shapeMismatch
deriving DecidableEq, Repr

/-! ## Name registry (`namesList`, ControlManifold.cpp lines 48-79)

`used` is a `std::set<std::string>`; we model it as a duplicate-free
`List String`.  `op == 1` is add, `op == 2` is remove, `op == 3` is replace.
A thrown `Exception` becomes `Except.error`; since the Lean operations are
pure, the registry is trivially unchanged on the failure paths, matching the
C++ code, which throws before mutating `used`. -/

/-- `namesList(1, name)`: fails with `duplicateName` when `name` is present,
otherwise inserts it (lines 54-59). -/
def registryAdd (name : String) (r : List String) : Except Err (List String) :=
  if name ∈ r then .error .duplicateName else .ok (name :: r)

/-- `namesList(2, name)`: fails with `unknownName` when `name` is absent,
otherwise removes it (lines 61-67). -/
def registryRemove (name : String) (r : List String) : Except Err (List String) :=
  if name ∈ r then .ok (r.erase name) else .error .unknownName

/-- `namesList(3, old, nw)`: no-op when `old == nw` (the `name1 != name2`
guard, line 69); otherwise `unknownName` when `old` is absent (lines 71-73),
`duplicateName` when `nw` is present (lines 74-75), else erase `old` and
insert `nw` (lines 76-77). -/
def registryReplace (old nw : String) (r : List String) : Except Err (List String) :=
  if old = nw then .ok r
  else if old ∈ r then
    if nw ∈ r then .error .duplicateName
    else .ok (nw :: r.erase old)
  else .error .unknownName

/-- `ControlManifold::setName` (lines 100-104): `namesList(3, name_, name)`
then `name_ = name`; on failure the exception propagates and `name_` is
unchanged.  Returns the new `(name_, registry)` pair on success. -/
def setName (cur nw : String) (r : List String) :
    Except Err (String × List String) :=
  (registryReplace cur nw r).map (fun r2 => (nw, r2))

/-- `ControlManifold::ControlManifold` (lines 84-88): derives
`name_ = "Control[" + stateManifold->getName() + "]"` and registers it
with `namesList(1, name_)`; a registry failure aborts construction.
Returns the constructed manifold's name and the new registry. -/
def constructManifold (stateName : String) (r : List String) :
    Except Err (String × List String) :=
  let n := "Control[" ++ stateName ++ "]"
  (registryAdd n r).map (fun r2 => (n, r2))

/-- `ControlManifold::~ControlManifold` (lines 90-93): `namesList(2, name_)`. -/
def destroyManifold (name : String) (r : List String) : Except Err (List String) :=
  registryRemove name r

/-! ## States and controls

`base::CompoundState` and `CompoundControl` are containers of child
instances in child-manifold order; leaf instances are opaque values owned by
a concrete manifold.  We model both as finite trees over an `Int` payload. -/

/-- A `base::State`: either a concrete leaf state or a `CompoundState`
whose `components` array holds one child state per child manifold. -/
inductive CState where
  | leaf : Int → CState
  | compound : List CState → CState

/-- An `ompl::control::Control`: a concrete leaf control or a
`CompoundControl` (lines 183-187) owning one child control per child. -/
inductive Ctl where
  | leaf : Int → Ctl
  | compound : List Ctl → Ctl

/-- `StatePropagationFn`: the externally injected propagation closure
(`setPropagationFunction`, lines 138-141). It consumes the start state, the
control, and the duration, and produces the result state. -/
def PropFn : Type := CState → Ctl → Int → CState

/-- Behavior a concrete subclass of `ControlManifold` contributes through
its virtual overrides.  The base class itself has `dynamics := none`
(no default propagation, lines 130-136), `canBack := true` (lines 110-113),
`nSlots := 0` (its `getValueAddressAtIndex` always returns `NULL`,
lines 115-118), and `allocOk := true`.  A subclass with real dynamics sets
`dynamics := some f`; a subclass exposing `n` addressable scalar slots sets
`nSlots := n` (slot `j` exists iff `j < n`); a subclass whose
`allocControl` throws is modelled by `allocOk := false`. -/
structure LeafBehavior where
  dynamics : Option PropFn
  canBack : Bool
  nSlots : Nat
  allocOk : Bool

/-- A control manifold: a leaf (`ControlManifold` or a concrete subclass,
with its `statePropagation_` member) or a `CompoundControlManifold` with its
`statePropagation_`, `locked_`, and `components_` members.  The C++
`componentCount_` cache is kept equal to `components_.size()` at every
mutation (line 149), so it is represented by `components.length`. -/
inductive CtrlM where
  | leaf : LeafBehavior → Option PropFn → CtrlM
  | compound : Option PropFn → Bool → List CtrlM → CtrlM

/-- The plain base `ControlManifold` with injected override `ov`. -/
def baseManifold (ov : Option PropFn) : CtrlM :=
  CtrlM.leaf ⟨none, true, 0, true⟩ ov

/-- `CompoundControlManifold::getSubManifoldCount` (lines 152-155): returns
the cached `componentCount_`, which equals `components_.size()`. -/
def getSubManifoldCount : CtrlM → Nat
  | .leaf _ _ => 0
  | .compound _ _ comps => comps.length

/-! ## Propagation (lines 130-136 and 232-244) -/

mutual

/-- `propagate(state, control, duration, result)`.
Base class (lines 130-136): call `statePropagation_` when set, else throw.
A concrete leaf subclass supplies its own dynamics; per the contract an
injected override is consulted first and is authoritative.
Compound (lines 232-244): call `statePropagation_` when set; otherwise cast
state/control/result to their compound shapes and propagate component `i`
through `components_[i]` for each `i < componentCount_`. -/
def propagate : CtrlM → CState → Ctl → Int → Except Err CState
  | .leaf b ov, s, c, d =>
    match ov with
    | some f => .ok (f s c d)
    | none =>
      match b.dynamics with
      | some g => .ok (g s c d)
      | none => .error .unconfiguredPropagation
  | .compound ov _ comps, s, c, d =>
    match ov with
    | some f => .ok (f s c d)
    | none =>
      match s, c with
      | .compound ss, .compound cs => (propagateList comps ss cs d).map CState.compound
      | _, _ => .error .shapeMismatch

/-- The loop of lines 241-242: propagate the `i`-th sub-state / sub-control
pair through the `i`-th child, collecting the sub-results in order. -/
def propagateList : List CtrlM → List CState → List Ctl → Int → Except Err (List CState)
  | [], _, _, _ => .ok []
  | m :: ms, s :: ss, c :: cs, d =>
    match propagate m s c d with
    | .ok r =>
      match propagateList ms ss cs d with
      | .ok rs => .ok (r :: rs)
      | .error e => .error e
    | .error e => .error e
  | _ :: _, _, _, _ => .error .shapeMismatch

end

/-! ## Backward-propagation capability (lines 110-113 and 251-257) -/

mutual

/-- `canPropagateBackward`: base class returns `true` unconditionally
(lines 110-113; a subclass may override through `canBack`); the compound
returns `false` as soon as one child reports `false` (lines 251-257). -/
def canPropagateBackward : CtrlM → Bool
  | .leaf b _ => b.canBack
  | .compound _ _ comps => canPropagateBackwardList comps

/-- The loop of lines 253-255. -/
def canPropagateBackwardList : List CtrlM → Bool
  | [] => true
  | m :: ms => if canPropagateBackward m then canPropagateBackwardList ms else false

end

/-! ## Flattened value-address lookup (lines 115-118 and 259-279)

The C++ function returns a `double*` into the control, or `NULL`.  We model
the returned address as the access path to the scalar slot: a leaf subclass
returns `[j]` for its `j`-th local slot, and the compound prefixes the index
of the child the slot lives in. -/

mutual

/-- `getValueAddressAtIndex(control, index)`.
Base class (lines 115-118): always `NULL`; a concrete leaf subclass with
`nSlots` addressable scalars answers local indices `j < nSlots`.
Compound (lines 259-279): walk the children in order; inside child `i`
probe local indices `j = 0, 1, ..., index`, incrementing the running
flattened counter `idx` for each hit, returning the hit once `idx` reaches
`index`, and moving to the next child at the first local miss. -/
def getValueAddressAtIndex : CtrlM → Ctl → Nat → Option (List Nat)
  | .leaf b _, _, index => if index < b.nSlots then some [index] else none
  | .compound _ _ comps, c, index =>
    match c with
    | .compound cs => gvaOuter comps cs index 0 0
    | _ => none
termination_by m _ _ => (sizeOf m, 0)

/-- The outer loop of line 264: child `i` with its control slot, carrying
the running flattened counter `idx`. -/
def gvaOuter : List CtrlM → List Ctl → Nat → Nat → Nat → Option (List Nat)
  | [], _, _, _, _ => none
  | _ :: _, [], _, _, _ => none
  | m :: ms, cc :: ccs, index, i, idx =>
    match gvaInner m cc index i 0 idx with
    | .inl va => some va
    | .inr idx2 => gvaOuter ms ccs index (i + 1) idx2
termination_by ms _ _ _ _ => (sizeOf ms, 0)
decreasing_by
· simp_wf
  omega
· simp_wf
  omega

/-- The inner loop of lines 265-277: probe local index `j` of child `m`
while `j <= index`; on a hit either return (`idx == index`, line 270) or
advance `idx` (line 273); on a miss break to the next child (line 276).
`Sum.inl va` is the early `return va`; `Sum.inr idx2` resumes the outer
loop with the updated counter. -/
def gvaInner (m : CtrlM) (cc : Ctl) (index i j idx : Nat) : List Nat ⊕ Nat :=
  if _h : j ≤ index then
    match getValueAddressAtIndex m cc j with
    | some va => if idx = index then .inl (i :: va) else gvaInner m cc index i (j + 1) (idx + 1)
    | none => .inr idx
  else .inr idx
termination_by (sizeOf m, index + 1 - j)

end

/-! ## Control lifecycle: copy, equality (lines 199-215) -/

mutual

/-- Shape compatibility between a manifold and a control: the structural
invariant (spec §3) that callers must uphold — a control passed to a
manifold operation was allocated by that manifold, so a compound control
has exactly one slot per child, recursively. -/
def shapeOk : CtrlM → Ctl → Bool
  | .leaf _ _, .leaf _ => true
  | .compound _ _ comps, .compound cs => shapeOkList comps cs
  | _, _ => false

/-- Pointwise shape compatibility of a child list with a slot list. -/
def shapeOkList : List CtrlM → List Ctl → Bool
  | [], [] => true
  | m :: ms, c :: cs => shapeOk m c && shapeOkList ms cs
  | _, _ => false

end

mutual

/-- `copyControl(destination, source)` as a function from the old
destination and the source to the new destination.  A leaf subclass copies
the source value wholesale; the compound (lines 199-205) copies slot `i`
through `components_[i]` for each `i < componentCount_`, leaving any slot
beyond the child count untouched. -/
def copyControl : CtrlM → Ctl → Ctl → Ctl
  | .leaf _ _, _, src => src
  | .compound _ _ comps, dst, src =>
    match dst, src with
    | .compound ds, .compound ss => .compound (copyControlList comps ds ss)
    | d, _ => d

/-- The loop of lines 203-204. -/
def copyControlList : List CtrlM → List Ctl → List Ctl → List Ctl
  | m :: ms, d :: ds, s :: ss => copyControl m d s :: copyControlList ms ds ss
  | _, ds, _ => ds

end

mutual

/-- `equalControls(control1, control2)`: a leaf subclass compares its
values; the compound (lines 207-215) returns `false` at the first child
reporting inequality and `true` once all children agree. -/
def equalControls : CtrlM → Ctl → Ctl → Bool
  | .leaf _ _, .leaf a, .leaf b => a == b
  | .compound _ _ comps, .compound xs, .compound ys => equalControlsList comps xs ys
  | _, _, _ => false

/-- The loop of lines 211-214. -/
def equalControlsList : List CtrlM → List Ctl → List Ctl → Bool
  | [], _, _ => true
  | m :: ms, x :: xs, y :: ys =>
    if equalControls m x y then equalControlsList ms xs ys else false
  | _ :: _, _, _ => false

end

/-! ## Control allocation (lines 181-188)

`allocControl` performs raw `new` allocations.  We track them in an
explicit allocator state: `next` is the next fresh allocation identifier
and `live` the identifiers allocated and not yet freed.  A leaf subclass
whose `allocOk` is `false` throws from its own `allocControl`; the
exception propagates through the compound's loop (lines 185-186), which
performs no cleanup of the slots already allocated. -/

/-- Allocator state: fresh-id counter and the set of live allocations. -/
structure AllocSt where
  next : Nat
  live : List Nat
deriving DecidableEq, Repr

mutual

/-- `allocControl()`.  A leaf subclass allocates one object (or throws,
when `allocOk = false`, before allocating).  The compound (lines 181-188)
first allocates the `CompoundControl` container with its slot array, then
fills slot `i` from `components_[i]`; a child failure propagates with the
container and all prior slots still allocated. -/
def allocControl : CtrlM → AllocSt → Except Err Ctl × AllocSt
  | .leaf b _, st =>
    if b.allocOk then (.ok (.leaf 0), ⟨st.next + 1, st.next :: st.live⟩)
    else (.error .allocFail, st)
  | .compound _ _ comps, st =>
    match allocControlList comps ⟨st.next + 1, st.next :: st.live⟩ with
    | (.ok cs, st2) => (.ok (.compound cs), st2)
    | (.error e, st2) => (.error e, st2)

/-- The loop of lines 185-186: allocate slot `i` from child `i` in order;
a failure aborts the loop without freeing the earlier slots. -/
def allocControlList : List CtrlM → AllocSt → Except Err (List Ctl) × AllocSt
  | [], st => (.ok [], st)
  | m :: ms, st =>
    match allocControl m st with
    | (.ok c, st2) =>
      match allocControlList ms st2 with
      | (.ok cs, st3) => (.ok (c :: cs), st3)
      | (.error e, st3) => (.error e, st3)
    | (.error e, st2) => (.error e, st2)

end

/-! ## Child-list mutation and locking (lines 143-150 and 246-249) -/

/-- `CompoundControlManifold::addSubManifold` (lines 143-150): throws
`lockedManifold` when `locked_` is set; otherwise appends the child and
refreshes the cached `componentCount_`.  A leaf manifold has no child list
(the method does not exist on the base class). -/
def addSubManifold : CtrlM → CtrlM → Except Err CtrlM
  | .compound ov lk comps, child =>
    if lk then .error .lockedManifold
    else .ok (.compound ov lk (comps ++ [child]))
  | .leaf b ov, _ => .ok (.leaf b ov)

/-- `CompoundControlManifold::lock` (lines 246-249): sets `locked_`. -/
def lockManifold : CtrlM → CtrlM
  | .compound ov _ comps => .compound ov true comps
  | m => m

/-- The child-list mutations available on a compound manifold. -/
inductive CmpOp where
  | add : CtrlM → CmpOp
  | lockIt : CmpOp

/-- One mutation step: a throwing `addSubManifold` leaves the manifold
unchanged (the exception propagates before any mutation, line 146). -/
def cmpStep (m : CtrlM) : CmpOp → CtrlM
  | .add child =>
    match addSubManifold m child with
    | .ok m2 => m2
    | .error _ => m
  | .lockIt => lockManifold m

/-! ## The lifecycle system: registry plus live manifolds

For the process-wide uniqueness invariant we track, alongside the registry,
the set of live `ControlManifold` objects — each identified by a fresh
numeric identity (its address) and carrying its current `name_` member.
A step is a constructor call, a destructor call, or a `setName` call; each
updates the registry through the corresponding `namesList` operation.  A
thrown construction exception means the object never becomes live; a thrown
`setName` leaves `name_` and the registry unchanged.  Destroying or
renaming an identity that is not live is no operation (in C++ those member
calls require a live object). -/

/-- The process state: the `namesList` registry, the live manifolds as
(identity, current name) pairs, and the next fresh identity. -/
structure SysState where
  registry : List String
  live : List (Nat × String)
  nextId : Nat

/-- The empty initial process state. -/
def sysInit : SysState := ⟨[], [], 0⟩

/-- A lifecycle event: construct a manifold over a state manifold with the
given name, destroy the manifold with the given identity, or call
`setName` on it. -/
inductive SysOp where
  | construct : String → SysOp
  | destroy : Nat → SysOp
  | setNameOp : Nat → String → SysOp

/-- One lifecycle step (constructor lines 84-88, destructor lines 90-93,
`setName` lines 100-104). -/
def sysStep (s : SysState) : SysOp → SysState
  | .construct stateName =>
    match constructManifold stateName s.registry with
    | .ok (n, r2) => ⟨r2, (s.nextId, n) :: s.live, s.nextId + 1⟩
    | .error _ => s
  | .destroy mid =>
    match s.live.find? (fun p => p.1 == mid) with
    | some (_, n) =>
      match destroyManifold n s.registry with
      | .ok r2 => ⟨r2, s.live.filter (fun p => p.1 != mid), s.nextId⟩
      | .error _ => ⟨s.registry, s.live.filter (fun p => p.1 != mid), s.nextId⟩
    | none => s
  | .setNameOp mid nw =>
    match s.live.find? (fun p => p.1 == mid) with
    | some (_, n) =>
      match setName n nw s.registry with
      | .ok (_, r2) =>
        ⟨r2, s.live.map (fun p => if p.1 == mid then (p.1, nw) else p), s.nextId⟩
      | .error _ => s
    | none => s

/-- Run a sequence of lifecycle events from a state. -/
def sysRun (ops : List SysOp) (s : SysState) : SysState :=
  ops.foldl sysStep s

/-- The process invariant: the registry holds no duplicates, no two live
manifolds share a name, live identities are distinct and below the fresh
counter, and the registry holds exactly the names of the live manifolds. -/
def SysInv (s : SysState) : Prop :=
  s.registry.Nodup ∧
  (s.live.map Prod.snd).Nodup ∧
  (s.live.map Prod.fst).Nodup ∧
  (∀ p ∈ s.live, p.1 < s.nextId) ∧
  (∀ n, n ∈ s.registry ↔ n ∈ s.live.map Prod.snd)

/-! ## C2: registry rename semantics -/

/-- C2: `rename(oldName, newName)` (the `op == 3` branch of `namesList`,
lines 69-78) is a no-op success when the two names coincide; otherwise it
fails with the unknown-name error when `old` is absent, fails with the
duplicate-name error when `nw` is already present, and otherwise removes
`old` and inserts `nw` in one atomic step; on either failure the registry
is unchanged (the Lean operations are pure, so the unchanged-registry part
is exactly the `error` results carrying no new registry).  `setName`
(lines 100-104) propagates exactly these outcomes. -/
theorem C2_registry_rename_semantics (old nw : String) (r : List String) :
    (old = nw → registryReplace old nw r = .ok r) ∧
    (old ≠ nw → old ∉ r → registryReplace old nw r = .error .unknownName) ∧
    (old ≠ nw → old ∈ r → nw ∈ r → registryReplace old nw r = .error .duplicateName) ∧
    (old ≠ nw → old ∈ r → nw ∉ r → registryReplace old nw r = .ok (nw :: r.erase old)) ∧
    setName old nw r = (registryReplace old nw r).map (fun r2 => (nw, r2)) := by
  refine ⟨fun h => ?_, fun h h2 => ?_, fun h h2 h3 => ?_, fun h h2 h3 => ?_, rfl⟩
  · simp [registryReplace, h]
  · simp [registryReplace, h, h2]
  · simp [registryReplace, h, h2, h3]
  · simp [registryReplace, h, h2, h3]

/-- C2 witness: the four rename outcomes at concrete registries. -/
theorem C2_registry_rename_semantics_witness :
    registryReplace "a" "a" ["a"] = .ok ["a"] ∧
    registryReplace "c" "d" ["a"] = .error .unknownName ∧
    registryReplace "a" "b" ["a", "b"] = .error .duplicateName ∧
    registryReplace "a" "b" ["a"] = .ok ["b"] := by
  refine ⟨(C2_registry_rename_semantics "a" "a" ["a"]).1 rfl,
    (C2_registry_rename_semantics "c" "d" ["a"]).2.1 (by decide) (by simp),
    (C2_registry_rename_semantics "a" "b" ["a", "b"]).2.2.1 (by decide) (by simp) (by simp),
    ?_⟩
  have h := (C2_registry_rename_semantics "a" "b" ["a"]).2.2.2.1 (by decide) (by simp) (by simp)
  simpa using h

/-! ## C10: default construction name and collision -/

/-- C10: the constructor (lines 84-88) derives the name
`"Control[" + stateManifold->getName() + "]"` and registers it before
returning, so construction succeeds exactly when that name is free;
constructing a second manifold over an identically-named state manifold
while the first is live fails with the duplicate-name error, and destroying
the first (which unregisters, lines 90-93) lets the second succeed. -/
theorem C10_construct_default_name (sname : String) (r : List String) :
    (("Control[" ++ sname ++ "]") ∉ r →
      constructManifold sname r =
        .ok ("Control[" ++ sname ++ "]", ("Control[" ++ sname ++ "]") :: r)) ∧
    (("Control[" ++ sname ++ "]") ∈ r → constructManifold sname r = .error .duplicateName) ∧
    (("Control[" ++ sname ++ "]") ∈ r →
      destroyManifold ("Control[" ++ sname ++ "]") r =
        .ok (r.erase ("Control[" ++ sname ++ "]"))) ∧
    (("Control[" ++ sname ++ "]") ∉ r.erase ("Control[" ++ sname ++ "]") →
      constructManifold sname (r.erase ("Control[" ++ sname ++ "]")) =
        .ok ("Control[" ++ sname ++ "]",
          ("Control[" ++ sname ++ "]") :: r.erase ("Control[" ++ sname ++ "]"))) := by
  refine ⟨fun h => ?_, fun h => ?_, fun h => ?_, fun h => ?_⟩ <;>
    simp [constructManifold, destroyManifold, registryAdd, registryRemove, Except.map, h]

/-- C10 witness: the collision scenario at the state-manifold name `"S"`:
fresh construction succeeds, a second construction collides, and
destroy-then-construct succeeds again. -/
theorem C10_construct_default_name_witness :
    constructManifold "S" [] = .ok ("Control[S]", ["Control[S]"]) ∧
    constructManifold "S" ["Control[S]"] = .error .duplicateName ∧
    destroyManifold "Control[S]" ["Control[S]"] = .ok [] ∧
    constructManifold "S" [] = .ok ("Control[S]", ["Control[S]"]) := by
  have h1 := (C10_construct_default_name "S" []).1 (by simp)
  have h2 := (C10_construct_default_name "S" ["Control[S]"]).2.1 (by simp)
  have h3 := (C10_construct_default_name "S" ["Control[S]"]).2.2.1 (by simp)
  refine ⟨by simpa using h1, by simpa using h2, by simpa using h3, by simpa using h1⟩

/-! ## C3: base propagate dispatch -/

/-- C3: `ControlManifold::propagate` (lines 130-136) invokes the function
injected through `setPropagationFunction` unconditionally when one is
present (whatever the subclass behavior `b` would provide) and its result
is authoritative; with no override and no subclass dynamics it fails with
the unconfigured-propagation error. -/
theorem C3_base_propagate_dispatch :
    (∀ (b : LeafBehavior) (f : PropFn) (s : CState) (c : Ctl) (d : Int),
        propagate (.leaf b (some f)) s c d = .ok (f s c d)) ∧
    (∀ (cb : Bool) (ns : Nat) (ao : Bool) (s : CState) (c : Ctl) (d : Int),
        propagate (.leaf ⟨none, cb, ns, ao⟩ none) s c d = .error .unconfiguredPropagation) := by
  exact ⟨fun b f s c d => by simp [propagate], fun cb ns ao s c d => by simp [propagate]⟩

/-! ## C8: backward-capability conjunction -/

/-- Helper: the loop of lines 253-255 computes the conjunction over the
child list. -/
theorem canPropagateBackwardList_eq_all (l : List CtrlM) :
    canPropagateBackwardList l = l.all canPropagateBackward := by
  induction l with
  | nil => simp [canPropagateBackwardList]
  | cons m ms ih =>
    rw [canPropagateBackwardList, List.all_cons, ih]
    cases canPropagateBackward m <;> simp

/-- C8: `CompoundControlManifold::canPropagateBackward` (lines 251-257) is
the conjunction over the children, recomputed from the current child list
on each call; one child reporting `false` forces the compound to report
`false`; and the base implementation (lines 110-113) returns `true`
unconditionally. -/
theorem C8_backward_capability_conjunction :
    (∀ (ov : Option PropFn) (lk : Bool) (comps : List CtrlM),
        canPropagateBackward (.compound ov lk comps) = comps.all canPropagateBackward) ∧
    (∀ (ov : Option PropFn) (lk : Bool) (comps : List CtrlM) (m : CtrlM),
        m ∈ comps → canPropagateBackward m = false →
        canPropagateBackward (.compound ov lk comps) = false) ∧
    (∀ ov : Option PropFn, canPropagateBackward (baseManifold ov) = true) := by
  refine ⟨fun ov lk comps => ?_, fun ov lk comps m hm hf => ?_, fun ov => rfl⟩
  · rw [canPropagateBackward, canPropagateBackwardList_eq_all]
  · rw [canPropagateBackward, canPropagateBackwardList_eq_all]
    exact List.all_eq_false.mpr ⟨m, hm, by simp [hf]⟩

/-- C8 witness: a two-child compound whose second child reports `false`
reports `false` itself, although its first child reports `true`. -/
theorem C8_backward_capability_conjunction_witness :
    canPropagateBackward
      (.compound none false [baseManifold none, .leaf ⟨none, false, 0, true⟩ none]) = false := by
  exact (C8_backward_capability_conjunction).2.1 none false
    [baseManifold none, .leaf ⟨none, false, 0, true⟩ none]
    (.leaf ⟨none, false, 0, true⟩ none)
    (List.mem_cons_of_mem _ (List.mem_cons_self _ _)) rfl

/-! ## C7: lock monotonicity -/

/-- C7: once `lock()` (lines 246-249) has set `locked_`, every
`addSubManifold` call fails with the locked-manifold error and leaves the
child list unchanged (lines 143-150), `getSubManifoldCount()` never changes
under any further sequence of mutations, and no operation clears the
`locked_` flag — the locked manifold is a fixed point of every mutation
sequence. -/
theorem C7_lock_monotonicity (ov : Option PropFn) (comps : List CtrlM) (ops : List CmpOp) :
    List.foldl cmpStep (CtrlM.compound ov true comps) ops = CtrlM.compound ov true comps ∧
    getSubManifoldCount (List.foldl cmpStep (CtrlM.compound ov true comps) ops) =
      comps.length ∧
    (∀ child, addSubManifold (CtrlM.compound ov true comps) child = .error .lockedManifold) ∧
    (∀ lk, lockManifold (CtrlM.compound ov lk comps) = CtrlM.compound ov true comps) := by
  have hstep : ∀ op, cmpStep (CtrlM.compound ov true comps) op = CtrlM.compound ov true comps := by
    intro op
    cases op <;> simp [cmpStep, addSubManifold, lockManifold]
  have hfold : List.foldl cmpStep (CtrlM.compound ov true comps) ops =
      CtrlM.compound ov true comps := by
    induction ops with
    | nil => rfl
    | cons op ops ih => rw [List.foldl_cons, hstep op, ih]
  refine ⟨hfold, by rw [hfold, getSubManifoldCount], fun child => ?_, fun lk => rfl⟩
  simp [addSubManifold]

/-! ## C4: compound propagate -/

/-- Helper: if each child propagation succeeds with the corresponding
sub-result, the loop of lines 241-242 collects exactly those sub-results. -/
theorem propagateList_ok (comps : List CtrlM) :
    ∀ (ss : List CState) (cs : List Ctl) (rs : List CState) (d : Int),
      comps.length = ss.length → comps.length = cs.length → comps.length = rs.length →
      (∀ i (h1 : i < comps.length) (h2 : i < ss.length) (h3 : i < cs.length)
          (h4 : i < rs.length),
        propagate (comps.get ⟨i, h1⟩) (ss.get ⟨i, h2⟩) (cs.get ⟨i, h3⟩) d =
          .ok (rs.get ⟨i, h4⟩)) →
      propagateList comps ss cs d = .ok rs := by
  induction comps with
  | nil =>
    intro ss cs rs d h1 h2 h3 _
    cases rs with
    | nil => rfl
    | cons r rs => simp at h3
  | cons m ms ih =>
    intro ss cs rs d h1 h2 h3 hall
    cases ss with
    | nil => simp at h1
    | cons s ss =>
      cases cs with
      | nil => simp at h2
      | cons c cs =>
        cases rs with
        | nil => simp at h3
        | cons r rs =>
          have h0 := hall 0 (by simp) (by simp) (by simp) (by simp)
          simp only [List.get] at h0
          rw [propagateList, h0]
          rw [ih ss cs rs d (by simpa using h1) (by simpa using h2) (by simpa using h3)
            (fun i hi1 hi2 hi3 hi4 =>
              hall (i + 1) (by simpa using Nat.succ_lt_succ hi1)
                (by simpa using Nat.succ_lt_succ hi2)
                (by simpa using Nat.succ_lt_succ hi3)
                (by simpa using Nat.succ_lt_succ hi4))]

/-- C4: `CompoundControlManifold::propagate` (lines 232-244) invokes the
injected override and skips recursion entirely when one is set; otherwise
it propagates the `i`-th sub-state / sub-control pair through
`components_[i]` for each index in order, assembling the `i`-th sub-result
from child `i`. -/
theorem C4_compound_propagate :
    (∀ (f : PropFn) (lk : Bool) (comps : List CtrlM) (s : CState) (c : Ctl) (d : Int),
        propagate (.compound (some f) lk comps) s c d = .ok (f s c d)) ∧
    (∀ (lk : Bool) (comps : List CtrlM) (ss : List CState) (cs : List Ctl)
        (rs : List CState) (d : Int),
      comps.length = ss.length → comps.length = cs.length → comps.length = rs.length →
      (∀ i (h1 : i < comps.length) (h2 : i < ss.length) (h3 : i < cs.length)
          (h4 : i < rs.length),
        propagate (comps.get ⟨i, h1⟩) (ss.get ⟨i, h2⟩) (cs.get ⟨i, h3⟩) d =
          .ok (rs.get ⟨i, h4⟩)) →
      propagate (.compound none lk comps) (.compound ss) (.compound cs) d =
        .ok (.compound rs)) := by
  refine ⟨fun f lk comps s c d => by simp [propagate],
    fun lk comps ss cs rs d h1 h2 h3 hall => ?_⟩
  rw [propagate, propagateList_ok comps ss cs rs d h1 h2 h3 hall]
  rfl

/-- C4 witness: a locked two-child compound with identity and successor
dynamics maps the compound state componentwise. -/
theorem C4_compound_propagate_witness :
    propagate
      (.compound none true
        [.leaf ⟨some (fun s _ _ => s), true, 0, true⟩ none,
         .leaf ⟨some (fun _ _ _ => CState.leaf 9), true, 0, true⟩ none])
      (.compound [.leaf 3, .leaf 4]) (.compound [.leaf 0, .leaf 1]) 1 =
      .ok (.compound [.leaf 3, .leaf 9]) := by
  refine (C4_compound_propagate).2 true _ [CState.leaf 3, CState.leaf 4]
    [Ctl.leaf 0, Ctl.leaf 1] [CState.leaf 3, CState.leaf 9] 1 rfl rfl rfl ?_
  intro i h1 h2 h3 h4
  match i with
  | 0 => simp [propagate, List.get]
  | 1 => simp [propagate, List.get]
  | (n + 2) => exact absurd h1 (by simp)

/-! ## C5: compound allocControl on a child failure -/

/-- C5: evaluation of `CompoundControlManifold::allocControl`
(lines 181-188) at a two-child compound whose second child's
`allocControl` throws.  The container (allocation id 0) and the first
child's control (allocation id 1) are still live when the failure
propagates: the code performs no cleanup on this path, so the prior slots
leak, contradicting the claimed partial-failure policy. -/
theorem C5_alloc_partial_failure_leak :
    allocControl
      (.compound none false
        [.leaf ⟨none, true, 0, true⟩ none, .leaf ⟨none, true, 0, false⟩ none])
      ⟨0, []⟩ = (.error .allocFail, ⟨2, [1, 0]⟩) ∧
    (allocControl
      (.compound none false
        [.leaf ⟨none, true, 0, true⟩ none, .leaf ⟨none, true, 0, false⟩ none])
      ⟨0, []⟩).2.live ≠ [] := by
  refine ⟨?_, ?_⟩ <;> simp [allocControl, allocControlList]

/-! ## C6: flattened value-address lookup -/

/-- A concrete leaf subclass exposing `n` addressable scalar slots
(local index `j` resolves iff `j < n`). -/
def leafSlots (n : Nat) : CtrlM := .leaf ⟨none, true, n, true⟩ none

/-- Helper: the inner probe loop (lines 265-277) on a leaf child with `n`
local slots, for any reachable loop state: either the running counter
reaches `index` within this child — at local slot `j + (index - idx)` —
or the loop leaves the child having counted its remaining `n - j` slots. -/
theorem gvaInner_leafSlots (n : Nat) (cc : Ctl) (index i : Nat) :
    ∀ (fuel j idx : Nat), index + 1 - j = fuel → j ≤ index → idx ≤ index →
      index - idx ≤ index - j →
      gvaInner (leafSlots n) cc index i j idx =
        if j + (index - idx) < n then Sum.inl [i, j + (index - idx)]
        else Sum.inr (idx + (n - j)) := by
  intro fuel
  induction fuel with
  | zero => intro j idx hf hj _ _; omega
  | succ f ih =>
    intro j idx hf hj hidx hk
    rw [gvaInner.eq_def]
    rw [dif_pos hj]
    have hleaf : getValueAddressAtIndex (leafSlots n) cc j =
        if j < n then some [j] else none := by
      simp [getValueAddressAtIndex, leafSlots]
    by_cases hjn : j < n
    · rw [hleaf, if_pos hjn]
      by_cases hret : idx = index
      · subst hret
        simp [Nat.sub_self, hjn]
      · dsimp only
        rw [if_neg hret]
        rw [ih (j + 1) (idx + 1) (by omega) (by omega) (by omega) (by omega)]
        have he1 : j + 1 + (index - (idx + 1)) = j + (index - idx) := by omega
        have he2 : idx + 1 + (n - (j + 1)) = idx + (n - j) := by omega
        rw [he1, he2]
    · rw [hleaf, if_neg hjn]
      have : ¬ j + (index - idx) < n := by omega
      rw [if_neg this]
      have : idx + (n - j) = idx := by omega
      rw [this]

/-- Helper: the outer walk (lines 264-278) over leaf children with local
slot counts `ns` finds a slot exactly when the remaining flattened index
falls below the remaining total slot count. -/
theorem gvaOuter_leafSlots (index : Nat) :
    ∀ (ns : List Nat) (ccs : List Ctl) (i idx : Nat), ccs.length = ns.length →
      idx ≤ index →
      (gvaOuter (ns.map leafSlots) ccs index i idx).isSome =
        decide (index - idx < ns.sum) := by
  intro ns
  induction ns with
  | nil =>
    intro ccs i idx hlen hidx
    have : ccs = [] := List.length_eq_zero.mp hlen
    subst this
    simp [gvaOuter]
  | cons n ns ih =>
    intro ccs i idx hlen hidx
    cases ccs with
    | nil => simp at hlen
    | cons cc ccs =>
      rw [List.map_cons, gvaOuter,
        gvaInner_leafSlots n cc index i (index + 1) 0 idx rfl (by omega) hidx (by omega)]
      by_cases h : 0 + (index - idx) < n
      · rw [if_pos h]
        simp only [Option.isSome_some, List.sum_cons]
        have : index - idx < n + ns.sum := by omega
        simp [this]
      · rw [if_neg h]
        have hn : n ≤ index - idx := by omega
        rw [ih ccs (i + 1) (idx + (n - 0)) (by simpa using hlen) (by omega)]
        rw [List.sum_cons]
        exact decide_eq_decide.mpr (by omega)

/-- C6: `getValueAddressAtIndex`.  The base implementation (lines 115-118)
reports no slot for every control and index.  The compound walk
(lines 259-279) resolves a flattened index exactly when it is below the
total slot count of the children (shown for an arbitrary list of leaf
children with arbitrary slot counts), and on the spec's example — children
with 2, 0, and 3 local slots — flat indices 0 and 1 resolve into child 0
(locals 0 and 1), indices 2, 3, 4 resolve into child 2 (locals 0, 1, 2),
and index 5 reports no slot. -/
theorem C6_flattened_index_lookup :
    (∀ (ov : Option PropFn) (c : Ctl) (i : Nat),
        getValueAddressAtIndex (baseManifold ov) c i = none) ∧
    (∀ (ov : Option PropFn) (lk : Bool) (ns : List Nat) (ccs : List Ctl) (index : Nat),
        ccs.length = ns.length →
        (getValueAddressAtIndex (.compound ov lk (ns.map leafSlots))
            (.compound ccs) index).isSome = decide (index < ns.sum)) ∧
    (getValueAddressAtIndex (.compound none false [leafSlots 2, leafSlots 0, leafSlots 3])
        (.compound [.leaf 0, .leaf 0, .leaf 0]) 0 = some [0, 0] ∧
     getValueAddressAtIndex (.compound none false [leafSlots 2, leafSlots 0, leafSlots 3])
        (.compound [.leaf 0, .leaf 0, .leaf 0]) 1 = some [0, 1] ∧
     getValueAddressAtIndex (.compound none false [leafSlots 2, leafSlots 0, leafSlots 3])
        (.compound [.leaf 0, .leaf 0, .leaf 0]) 2 = some [2, 0] ∧
     getValueAddressAtIndex (.compound none false [leafSlots 2, leafSlots 0, leafSlots 3])
        (.compound [.leaf 0, .leaf 0, .leaf 0]) 3 = some [2, 1] ∧
     getValueAddressAtIndex (.compound none false [leafSlots 2, leafSlots 0, leafSlots 3])
        (.compound [.leaf 0, .leaf 0, .leaf 0]) 4 = some [2, 2] ∧
     getValueAddressAtIndex (.compound none false [leafSlots 2, leafSlots 0, leafSlots 3])
        (.compound [.leaf 0, .leaf 0, .leaf 0]) 5 = none) := by
  refine ⟨fun ov c i => by simp [getValueAddressAtIndex, baseManifold],
    fun ov lk ns ccs index hlen => ?_, ?_⟩
  · rw [getValueAddressAtIndex]
    have h := gvaOuter_leafSlots index ns ccs 0 0 hlen (by omega)
    simpa using h
  · refine ⟨?_, ?_, ?_, ?_, ?_, ?_⟩ <;>
      simp [getValueAddressAtIndex, gvaOuter, gvaInner, leafSlots]

/-- C6 witness: the general characterization applied to the example slot
counts 2, 0, 3 — flat index 4 resolves, flat index 5 does not. -/
theorem C6_flattened_index_lookup_witness :
    (getValueAddressAtIndex (.compound none false ([2, 0, 3].map leafSlots))
        (.compound [.leaf 0, .leaf 0, .leaf 0]) 4).isSome = true ∧
    (getValueAddressAtIndex (.compound none false ([2, 0, 3].map leafSlots))
        (.compound [.leaf 0, .leaf 0, .leaf 0]) 5).isSome = false := by
  have h4 := (C6_flattened_index_lookup).2.1 none false [2, 0, 3]
    [Ctl.leaf 0, Ctl.leaf 0, Ctl.leaf 0] 4 rfl
  have h5 := (C6_flattened_index_lookup).2.1 none false [2, 0, 3]
    [Ctl.leaf 0, Ctl.leaf 0, Ctl.leaf 0] 5 rfl
  exact ⟨by simpa using h4, by simpa using h5⟩

/-! ## C9: recursive copy / equality round trip -/

mutual

/-- Helper: copying and then comparing against the source yields `true`,
for any manifold and any pair of controls shaped like its controls. -/
theorem copyRoundTripAux : ∀ (m : CtrlM) (dst src : Ctl),
    shapeOk m dst = true → shapeOk m src = true →
    equalControls m (copyControl m dst src) src = true
  | .leaf b ov, dst, src, _, hs => by
    cases src with
    | leaf a => simp [copyControl, equalControls]
    | compound ss => simp [shapeOk] at hs
  | .compound ov lk comps, dst, src, hd, hs => by
    cases dst with
    | leaf a => simp [shapeOk] at hd
    | compound ds =>
      cases src with
      | leaf a => simp [shapeOk] at hs
      | compound ss =>
        simp only [copyControl, equalControls]
        exact copyRoundTripListAux comps ds ss (by simpa [shapeOk] using hd)
          (by simpa [shapeOk] using hs)

/-- Helper: the element-wise loops of lines 203-204 and 211-214 preserve
the round trip across the child list. -/
theorem copyRoundTripListAux : ∀ (ms : List CtrlM) (ds ss : List Ctl),
    shapeOkList ms ds = true → shapeOkList ms ss = true →
    equalControlsList ms (copyControlList ms ds ss) ss = true
  | [], _, _, _, _ => by simp [equalControlsList]
  | m :: ms, [], _, hd, _ => by simp [shapeOkList] at hd
  | m :: ms, d :: ds, [], _, hs => by simp [shapeOkList] at hs
  | m :: ms, d :: ds, s :: ss, hd, hs => by
    rw [shapeOkList, Bool.and_eq_true] at hd hs
    simp only [copyControlList, equalControlsList]
    rw [copyRoundTripAux m d s hd.1 hs.1, if_pos rfl]
    exact copyRoundTripListAux ms ds ss hd.2 hs.2

end

/-- Helper: the compound equality loop (lines 211-214) reports `false` as
soon as some slot compares unequal under its owning child. -/
theorem equalControlsList_false_of : ∀ (ms : List CtrlM) (xs ys : List Ctl) (i : Nat)
    (h1 : i < ms.length) (h2 : i < xs.length) (h3 : i < ys.length),
    equalControls (ms.get ⟨i, h1⟩) (xs.get ⟨i, h2⟩) (ys.get ⟨i, h3⟩) = false →
    equalControlsList ms xs ys = false
  | m :: ms, x :: xs, y :: ys, 0, _, _, _, hf => by
    simp only [List.get] at hf
    simp [equalControlsList, hf]
  | m :: ms, x :: xs, y :: ys, i + 1, h1, h2, h3, hf => by
    simp only [List.get] at hf
    rw [equalControlsList]
    by_cases h : equalControls m x y
    · rw [if_pos h]
      exact equalControlsList_false_of ms xs ys i (by simpa using h1) (by simpa using h2)
        (by simpa using h3) hf
    · rw [if_neg h]

/-- C9: for every manifold whose controls are shaped consistently with it,
`copyControl(c2, c)` followed by `equalControls(c2, c)` yields `true`
(children satisfy the same property recursively, leaves by value copy);
and if one slot of a compound pair compares unequal under its owning child
manifold — as after mutating one slot of the copied control — the compound
`equalControls` yields `false`. -/
theorem C9_copy_equality_roundtrip :
    (∀ (m : CtrlM) (dst src : Ctl), shapeOk m dst = true → shapeOk m src = true →
        equalControls m (copyControl m dst src) src = true) ∧
    (∀ (ov : Option PropFn) (lk : Bool) (comps : List CtrlM) (xs ys : List Ctl) (i : Nat)
        (h1 : i < comps.length) (h2 : i < xs.length) (h3 : i < ys.length),
        equalControls (comps.get ⟨i, h1⟩) (xs.get ⟨i, h2⟩) (ys.get ⟨i, h3⟩) = false →
        equalControls (.compound ov lk comps) (.compound xs) (.compound ys) = false) := by
  refine ⟨copyRoundTripAux, fun ov lk comps xs ys i h1 h2 h3 hf => ?_⟩
  rw [equalControls]
  exact equalControlsList_false_of comps xs ys i h1 h2 h3 hf

/-- C9 witness: a one-child compound: copying `[7]` over `[5]` makes the
copy equal to the source; afterwards mutating the slot to `[8]` compares
unequal. -/
theorem C9_copy_equality_roundtrip_witness :
    equalControls (.compound none false [baseManifold none])
      (copyControl (.compound none false [baseManifold none])
        (.compound [.leaf 5]) (.compound [.leaf 7]))
      (.compound [.leaf 7]) = true ∧
    equalControls (.compound none false [baseManifold none])
      (.compound [.leaf 7]) (.compound [.leaf 8]) = false := by
  constructor
  · exact (C9_copy_equality_roundtrip).1 (.compound none false [baseManifold none])
      (.compound [.leaf 5]) (.compound [.leaf 7])
      (by simp [shapeOk, shapeOkList, baseManifold])
      (by simp [shapeOk, shapeOkList, baseManifold])
  · exact (C9_copy_equality_roundtrip).2 none false [baseManifold none]
      [.leaf 7] [.leaf 8] 0 (by simp) (by simp) (by simp)
      (by simp [equalControls, baseManifold])

/-! ## C1: the process-wide name-uniqueness invariant -/

/-- Helper: destroying the live entry of identity `mid` (holding name `n`)
removes exactly the name `n` from the live-name list, when identities and
names are both duplicate-free. -/
theorem filterNames_perm (live : List (Nat × String)) (mid : Nat) (n : String)
    (hids : (live.map Prod.fst).Nodup) (hnames : (live.map Prod.snd).Nodup)
    (hmem : (mid, n) ∈ live) :
    ((live.filter (fun p => p.1 != mid)).map Prod.snd).Perm
      ((live.map Prod.snd).erase n) := by
  induction live with
  | nil => exact absurd hmem (List.not_mem_nil _)
  | cons p rest ih =>
    rw [List.map_cons, List.nodup_cons] at hids hnames
    by_cases hp : p.1 = mid
    · have hpn : p = (mid, n) := by
        rcases List.mem_cons.mp hmem with h | h
        · exact h.symm
        · have hin := List.mem_map_of_mem Prod.fst h
          rw [← hp] at hin
          exact absurd hin hids.1
      subst hpn
      rw [List.filter_cons_of_neg (by simp)]
      have hrest : rest.filter (fun p => p.1 != mid) = rest := by
        apply List.filter_eq_self.mpr
        intro q hq
        have hq1 : q.1 ≠ mid := by
          intro he
          have hin := List.mem_map_of_mem Prod.fst hq
          rw [he] at hin
          exact hids.1 hin
        simpa using hq1
      rw [hrest, List.map_cons, List.erase_cons_head]
    · have hmem2 : (mid, n) ∈ rest := by
        rcases List.mem_cons.mp hmem with h | h
        · exact absurd (congrArg Prod.fst h.symm) hp
        · exact h
      have hpn2 : p.2 ≠ n := by
        intro he
        have hin := List.mem_map_of_mem Prod.snd hmem2
        rw [← he] at hin
        exact hnames.1 hin
      rw [List.filter_cons_of_pos (by simpa using hp), List.map_cons, List.map_cons,
        List.erase_cons_tail (by simpa using hpn2)]
      exact List.Perm.cons p.2 (ih hids.2 hnames.2 hmem2)

/-- Helper: renaming the live entry of identity `mid` from `n` to `nw`
replaces exactly the name `n` by `nw` in the live-name list (up to
reordering), when identities and names are both duplicate-free. -/
theorem updateNames_perm (live : List (Nat × String)) (mid : Nat) (n nw : String)
    (hids : (live.map Prod.fst).Nodup) (hnames : (live.map Prod.snd).Nodup)
    (hmem : (mid, n) ∈ live) :
    ((live.map (fun p => if p.1 == mid then (p.1, nw) else p)).map Prod.snd).Perm
      (nw :: (live.map Prod.snd).erase n) := by
  induction live with
  | nil => exact absurd hmem (List.not_mem_nil _)
  | cons p rest ih =>
    rw [List.map_cons, List.nodup_cons] at hids hnames
    by_cases hp : p.1 = mid
    · have hpn : p = (mid, n) := by
        rcases List.mem_cons.mp hmem with h | h
        · exact h.symm
        · have hin := List.mem_map_of_mem Prod.fst h
          rw [← hp] at hin
          exact absurd hin hids.1
      subst hpn
      have hrest : rest.map (fun p : Nat × String => if p.1 == mid then (p.1, nw) else p) =
          rest := by
        have hpt : ∀ q ∈ rest,
            (if q.1 == mid then (q.1, nw) else q) = id q := by
          intro q hq
          have hq1 : q.1 ≠ mid := by
            intro he
            have hin := List.mem_map_of_mem Prod.fst hq
            rw [he] at hin
            exact hids.1 hin
          simp [hq1]
        rw [List.map_congr_left hpt, List.map_id]
      rw [List.map_cons, hrest]
      simp only [beq_self_eq_true, if_true, List.map_cons, List.erase_cons_head]
      exact List.Perm.refl _
    · have hmem2 : (mid, n) ∈ rest := by
        rcases List.mem_cons.mp hmem with h | h
        · exact absurd (congrArg Prod.fst h.symm) hp
        · exact h
      have hpn2 : p.2 ≠ n := by
        intro he
        have hin := List.mem_map_of_mem Prod.snd hmem2
        rw [← he] at hin
        exact hnames.1 hin
      rw [List.map_cons, List.map_cons, List.map_cons,
        List.erase_cons_tail (by simpa using hpn2)]
      have hup : (if p.1 == mid then (p.1, nw) else p) = p := by simp [hp]
      rw [hup]
      exact (List.Perm.cons p.2 (ih hids.2 hnames.2 hmem2)).trans
        (List.Perm.swap nw p.2 _)

/-- Helper: every lifecycle step preserves the process invariant. -/
theorem sysInv_step (s : SysState) (op : SysOp) (h : SysInv s) : SysInv (sysStep s op) := by
  obtain ⟨hreg, hnames, hids, hbound, hiff⟩ := h
  cases op with
  | construct sname =>
    by_cases hn : ("Control[" ++ sname ++ "]") ∈ s.registry
    · have hc : constructManifold sname s.registry = .error .duplicateName := by
        simp [constructManifold, registryAdd, Except.map, hn]
      simp only [sysStep, hc]
      exact ⟨hreg, hnames, hids, hbound, hiff⟩
    · have hc : constructManifold sname s.registry =
          .ok ("Control[" ++ sname ++ "]", ("Control[" ++ sname ++ "]") :: s.registry) := by
        simp [constructManifold, registryAdd, Except.map, hn]
      simp only [sysStep, hc]
      refine ⟨List.nodup_cons.mpr ⟨hn, hreg⟩, ?_, ?_, ?_, ?_⟩
      · rw [List.map_cons]
        refine List.nodup_cons.mpr ⟨fun hin => hn ((hiff _).mpr hin), hnames⟩
      · rw [List.map_cons]
        refine List.nodup_cons.mpr ⟨?_, hids⟩
        intro hin
        obtain ⟨p, hp, he⟩ := List.mem_map.mp hin
        have := hbound p hp
        omega
      · intro p hp
        rcases List.mem_cons.mp hp with h | h
        · rw [h]
          exact Nat.lt_succ_self _
        · exact Nat.lt_succ_of_lt (hbound p h)
      · intro m
        rw [List.map_cons]
        simp only [List.mem_cons]
        exact or_congr Iff.rfl (hiff m)
  | destroy mid =>
    cases hfind : s.live.find? (fun p => p.1 == mid) with
    | none =>
      simp only [sysStep, hfind]
      exact ⟨hreg, hnames, hids, hbound, hiff⟩
    | some q =>
      obtain ⟨qid, n⟩ := q
      have hqmem : (qid, n) ∈ s.live := List.mem_of_find?_eq_some hfind
      have hqid : qid = mid := by
        have := List.find?_some hfind
        simpa using this
      subst hqid
      have hnin : n ∈ s.live.map Prod.snd := List.mem_map_of_mem Prod.snd hqmem
      have hnreg : n ∈ s.registry := (hiff n).mpr hnin
      have hdm : destroyManifold n s.registry = .ok (s.registry.erase n) := by
        simp [destroyManifold, registryRemove, hnreg]
      simp only [sysStep, hfind, hdm]
      have hperm := filterNames_perm s.live qid n hids hnames hqmem
      refine ⟨hreg.erase n, hperm.nodup_iff.mpr (hnames.erase n), ?_, ?_, ?_⟩
      · exact List.Nodup.sublist ((List.filter_sublist _).map Prod.fst) hids
      · intro p hp
        exact hbound p (List.mem_of_mem_filter hp)
      · intro m
        rw [hperm.mem_iff, hreg.mem_erase_iff, hnames.mem_erase_iff]
        exact and_congr Iff.rfl (hiff m)
  | setNameOp mid nw =>
    cases hfind : s.live.find? (fun p => p.1 == mid) with
    | none =>
      simp only [sysStep, hfind]
      exact ⟨hreg, hnames, hids, hbound, hiff⟩
    | some q =>
      obtain ⟨qid, n⟩ := q
      have hqmem : (qid, n) ∈ s.live := List.mem_of_find?_eq_some hfind
      have hqid : qid = mid := by
        have := List.find?_some hfind
        simpa using this
      subst hqid
      have hnin : n ∈ s.live.map Prod.snd := List.mem_map_of_mem Prod.snd hqmem
      have hnreg : n ∈ s.registry := (hiff n).mpr hnin
      have hfst : ((s.live.map (fun p => if p.1 == qid then (p.1, nw) else p)).map
          Prod.fst) = s.live.map Prod.fst := by
        rw [List.map_map]
        apply List.map_congr_left
        intro q hq
        by_cases hqm : (q.1 == qid) = true <;> simp [Function.comp, hqm]
      have hsnd_bound : ∀ p ∈ s.live.map (fun p => if p.1 == qid then (p.1, nw) else p),
          p.1 < s.nextId := by
        intro p hp
        obtain ⟨q, hq, he⟩ := List.mem_map.mp hp
        subst he
        by_cases hqm : (q.1 == qid) = true <;> simp [hqm] <;> exact hbound q hq
      by_cases heq : n = nw
      · subst heq
        have hsn : setName n n s.registry = .ok (n, s.registry) := by
          simp [setName, registryReplace, Except.map]
        simp only [sysStep, hfind, hsn]
        have hperm2 : ((s.live.map (fun p => if p.1 == qid then (p.1, n) else p)).map
            Prod.snd).Perm (s.live.map Prod.snd) :=
          (updateNames_perm s.live qid n n hids hnames hqmem).trans
            (List.perm_cons_erase hnin).symm
        refine ⟨hreg, hperm2.nodup_iff.mpr hnames, ?_, hsnd_bound, ?_⟩
        · rw [hfst]
          exact hids
        · intro m
          rw [hperm2.mem_iff]
          exact hiff m
      · by_cases hnwreg : nw ∈ s.registry
        · have hsn : setName n nw s.registry = .error .duplicateName := by
            simp [setName, registryReplace, Except.map, heq, hnreg, hnwreg]
          simp only [sysStep, hfind, hsn]
          exact ⟨hreg, hnames, hids, hbound, hiff⟩
        · have hsn : setName n nw s.registry = .ok (nw, nw :: s.registry.erase n) := by
            simp [setName, registryReplace, Except.map, heq, hnreg, hnwreg]
          simp only [sysStep, hfind, hsn]
          have hperm := updateNames_perm s.live qid n nw hids hnames hqmem
          have hnwnames : nw ∉ s.live.map Prod.snd := fun hin => hnwreg ((hiff nw).mpr hin)
          refine ⟨?_, ?_, ?_, hsnd_bound, ?_⟩
          · refine List.nodup_cons.mpr ⟨?_, hreg.erase n⟩
            intro hin
            exact hnwreg (List.mem_of_mem_erase hin)
          · refine hperm.nodup_iff.mpr (List.nodup_cons.mpr ⟨?_, hnames.erase n⟩)
            intro hin
            exact hnwnames (List.mem_of_mem_erase hin)
          · rw [hfst]
            exact hids
          · intro m
            rw [hperm.mem_iff]
            simp only [List.mem_cons]
            refine or_congr Iff.rfl ?_
            rw [hreg.mem_erase_iff, hnames.mem_erase_iff]
            exact and_congr Iff.rfl (hiff m)

/-- Helper: the invariant holds in the empty initial state. -/
theorem sysInv_init : SysInv sysInit := by
  refine ⟨?_, ?_, ?_, ?_, ?_⟩ <;> simp [sysInit]

/-- Helper: the invariant holds after any sequence of lifecycle events. -/
theorem sysInv_run (ops : List SysOp) : ∀ (s : SysState), SysInv s → SysInv (sysRun ops s) := by
  induction ops with
  | nil => exact fun s h => h
  | cons op ops ih =>
    intro s h
    rw [sysRun, List.foldl_cons]
    exact ih (sysStep s op) (sysInv_step s op h)

/-- C1: after every sequence of manifold constructions, destructions, and
renames starting from the empty process, no two live control manifolds
report the same name, and the registry holds, without duplicates, exactly
the names of the live manifolds — registration occurring on construction,
unregistration on destruction, and replacement on rename, as encoded in
`sysStep`. -/
theorem C1_name_uniqueness (ops : List SysOp) :
    ((sysRun ops sysInit).live.map Prod.snd).Nodup ∧
    (sysRun ops sysInit).registry.Nodup ∧
    (∀ n, n ∈ (sysRun ops sysInit).registry ↔
      n ∈ (sysRun ops sysInit).live.map Prod.snd) := by
  have h := sysInv_run ops sysInit sysInv_init
  exact ⟨h.2.1, h.1, h.2.2.2.2⟩

end OmplControl
